import Mathlib

set_option maxRecDepth 10000

/-!
Verification development for hack/fusion/sync_upstream_and_apply_fusion_patch.py.

Source texts are modelled as lists of characters (`List Char`).  Python's
substring test `pat in s` is `containsSub pat s`; `str.split(chr(10))` is
`splitNl`; `chr(10).join(ls)` is `joinNl`.  The two patch operations
`apply_toolsets_patch` (RULE_A) and `apply_modules_patch` (RULE_B) are
translated line by line from the script, and the orchestrator `main` is
modelled as `mainRun` over the outcome signals of the external collaborators
(git, go test, push) plus the file-system contents of the two target files.
-/

/-- Python substring prefix test: does `pat` occur at the start of `s`? -/
def isPre (pat s : List Char) : Bool :=
  match pat, s with
  | [], _ => true
  | _ :: _, [] => false
  | p :: ps, c :: cs => p == c && isPre ps cs

/-- Python membership test `pat in s` on strings: substring search. -/
def containsSub (pat : List Char) : List Char → Bool
  | [] => isPre pat []
  | c :: rest => isPre pat (c :: rest) || containsSub pat rest

/-- Python `s.endswith(chr(10))`. -/
def endsWithNl : List Char → Bool
  | [] => false
  | [c] => c == '\n'
  | _ :: c :: cs => endsWithNl (c :: cs)

/-- Python `s.split(chr(10))`: split a character list at newline characters. -/
def splitNl : List Char → List (List Char)
  | [] => [[]]
  | c :: cs =>
    if c = '\n' then [] :: splitNl cs
    else
      match splitNl cs with
      | l :: ls => (c :: l) :: ls
      | [] => [[c]]

/-- Python `chr(10).join(ls)`: join lines with newline separators. -/
def joinNl : List (List Char) → List Char
  | [] => []
  | [l] => l
  | l :: ls => l ++ '\n' :: joinNl ls

/-- First marker of RULE_A's presence predicate (script line 153). -/
def markRegister : List Char := "registerFusionTools".toList

/-- Second marker of RULE_A's presence predicate (script line 153). -/
def markSetReg : List Char := "SetFusionRegistration".toList

/-- The fixed Go hook block `fusion_code` appended by RULE_A (script lines 160-177). -/
def fusionCode : List Char := "\nfunc init() \x7b\n\t// IBM Fusion extension integration point\n\t// This is the single hook for registering IBM Fusion tools\n\t// Tools are only registered if FUSION_TOOLS_ENABLED=true\n\tregisterFusionTools()\n\x7d\n\n// registerFusionTools is a placeholder that will be implemented by the fusion package\n// This allows the fusion package to register itself without modifying upstream code\nvar registerFusionTools = func() \x7b\x7d\n\n// SetFusionRegistration allows the fusion package to hook into the registration process\n// This is the single integration point for IBM Fusion tools\nfunc SetFusionRegistration(fn func()) \x7b\n\tregisterFusionTools = fn\n\x7d\n".toList

/-- RULE_A, `apply_toolsets_patch` on the file content (script lines 150-187):
if both presence markers occur as substrings the text is returned with
`changed = false`; otherwise exactly one newline is appended when the text does
not already end with one, then the fixed hook block is appended
(`changed = true`). -/
def apply_toolsets_patch (content : List Char) : List Char × Bool :=
  if containsSub markRegister content && containsSub markSetReg content then
    (content, false)
  else
    ((if endsWithNl content then content else content ++ ['\n']) ++ fusionCode, true)

/-- RULE_B's presence marker (script line 203). -/
def fusionMark : List Char := "pkg/toolsets/fusion".toList

/-- The import-block open marker scanned for by the rebuild loop (script line 227). -/
def impOpenMark : List Char := "import (".toList

/-- The preferred-predecessor anchor substring (script line 234). -/
def coreMark : List Char := "pkg/toolsets/core".toList

/-- The preferred-successor anchor substring (script line 239). -/
def helmMark : List Char := "pkg/toolsets/helm".toList

/-- The close-marker substring ending the import block (script line 245). -/
def closeMark : List Char := ")".toList

/-- The inserted line `fusion_import.rstrip()` (script lines 218, 236, 240). -/
def fusionImportLine : List Char := "\t_ \"github.com/containers/kubernetes-mcp-server/pkg/toolsets/fusion\"".toList

/-- Python character class backslash-s over the ASCII range (used by the
`re.search` on script line 211). -/
def isPyWs (c : Char) : Bool :=
  c == ' ' || c == '\t' || c == '\n' || c == '\r' || c == '\x0b' || c == '\x0c'

/-- Drop the maximal whitespace run at the head of `s`. -/
def dropWs : List Char → List Char
  | [] => []
  | c :: r => if isPyWs c then dropWs r else c :: r

/-- Does the maximal whitespace run at the head of `s` contain a newline? -/
def wsRunHasNl : List Char → Bool
  | [] => false
  | c :: r => if c = '\n' then true else if isPyWs c then wsRunHasNl r else false

/-- After the opening double quote: require at least one non-quote character,
then a closing quote, then whitespace containing a newline (tail of
the import-block pattern of script line 209). -/
def impMatchQuotedTail : List Char → Bool
  | [] => false
  | '"' :: rest => wsRunHasNl rest
  | _ :: rest => impMatchQuotedTail rest

/-- After the opening double quote: the `[^"]+"` part needs at least one
non-quote character before the closing quote. -/
def impMatchQuoted : List Char → Bool
  | [] => false
  | '"' :: _ => false
  | _ :: rest => impMatchQuotedTail rest

/-- After the opening parenthesis: whitespace containing a newline, then an
underscore, then whitespace, then a double-quoted import path, then whitespace
containing a newline. -/
def impMatchAfterParen (s : List Char) : Bool :=
  wsRunHasNl s &&
    (match dropWs s with
     | '_' :: r1 =>
       (match dropWs r1 with
        | '"' :: r2 => impMatchQuoted r2
        | _ => false)
     | _ => false)

/-- Does the import-block regular expression of script line 209 match at the
start of `s`?  The pattern is: the word import, whitespace, an opening
parenthesis, whitespace including a newline, an underscore, whitespace, a
double-quoted nonempty path, whitespace including a newline.  Each whitespace
star before a non-whitespace literal is deterministic (greedy without
backtracking), and each whitespace star before a newline literal is equivalent
to requiring the maximal whitespace run to contain a newline and continuing at
its end. -/
def impMatchAt (s : List Char) : Bool :=
  if s.take 6 = "import".toList then
    match dropWs (s.drop 6) with
    | '(' :: r => impMatchAfterParen r
    | _ => false
  else false

/-- Python `re.search` of the import-block pattern (script line 211): try the
pattern at every suffix of the text. -/
def impPatSearch : List Char → Bool
  | [] => impMatchAt []
  | c :: rest => impMatchAt (c :: rest) || impPatSearch rest

/-- The line-by-line rebuild loop of `apply_modules_patch` (script lines
221-248).  State: `inBlock` is `in_import_block`, `added` is `import_added`.
Returns the rebuilt line list and the final `import_added` flag. -/
def scanGo : List (List Char) → Bool → Bool → List (List Char) × Bool
  | [], _, added => ([], added)
  | line :: rest, inBlock, added =>
    if containsSub impOpenMark line then
      let p := scanGo rest true added
      (line :: p.1, p.2)
    else if inBlock && !added && containsSub coreMark line then
      let p := scanGo rest inBlock true
      (line :: fusionImportLine :: p.1, p.2)
    else if inBlock && !added && containsSub helmMark line then
      let p := scanGo rest inBlock true
      (fusionImportLine :: line :: p.1, p.2)
    else
      let inBlock2 := if containsSub closeMark line && inBlock then false else inBlock
      let p := scanGo rest inBlock2 added
      (line :: p.1, p.2)

/-- Outcome of `apply_modules_patch` on a file content.  `alreadyPresent`:
the presence predicate held, the function returned True without writing.
`structureNotFound`: the import-block pattern was not found, the function
returned False without writing.  `written out added`: the function wrote `out`
to the file and returned True; `added` is the final `import_added` flag. -/
inductive ModulesOutcome where
  | alreadyPresent : ModulesOutcome
  | structureNotFound : ModulesOutcome
  | written : List Char → Bool → ModulesOutcome
deriving DecidableEq

/-- RULE_B, `apply_modules_patch` on the file content (script lines 200-253). -/
def apply_modules_patch (content : List Char) : ModulesOutcome :=
  if containsSub fusionMark content then .alreadyPresent
  else if !(impPatSearch content) then .structureNotFound
  else
    let p := scanGo (splitNl content) false false
    .written (joinNl p.1) p.2

/-- The text on disk after `apply_modules_patch` ran on `content`. -/
def modulesResult (content : List Char) : ModulesOutcome → List Char
  | .alreadyPresent => content
  | .structureNotFound => content
  | .written out _ => out

/-- The changed flag of the spec contract: did RULE_B insert its line? -/
def modulesChanged : ModulesOutcome → Bool
  | .written _ added => added
  | _ => false

/-- Which anchor a scan position hit: the predecessor (core) or the successor
(helm) anchor of script lines 234 and 239. -/
inductive AnchorHit where
  | core : AnchorHit
  | helm : AnchorHit
deriving DecidableEq

/-- The marker substring of an anchor kind. -/
def anchorMark : AnchorHit → List Char
  | .core => coreMark
  | .helm => helmMark

/-- Locate the first anchor line that the rebuild loop of script lines 226-248
would react to: the index of the first line that is inside an import block
(per the same `in_import_block` state updates as the loop) and contains the
core or helm marker. -/
def findAnchor : List (List Char) → Bool → Option (Nat × AnchorHit)
  | [], _ => none
  | line :: rest, inBlock =>
    if containsSub impOpenMark line then
      match findAnchor rest true with
      | none => none
      | some (i, h) => some (i + 1, h)
    else if inBlock && containsSub coreMark line then some (0, .core)
    else if inBlock && containsSub helmMark line then some (0, .helm)
    else
      let inBlock2 := if containsSub closeMark line && inBlock then false else inBlock
      match findAnchor rest inBlock2 with
      | none => none
      | some (i, h) => some (i + 1, h)

/-- `apply_toolsets_patch` including the file-existence guard of script lines
144-148: `none` models a missing target file, for which the operation reports
failure and performs no write. -/
def apply_toolsets_patch_fs : Option (List Char) → Option (List Char) × Bool
  | none => (none, false)
  | some c => (some (apply_toolsets_patch c).1, true)

/-- `apply_modules_patch` including the file-existence guard of script lines
194-198: `none` models a missing target file, for which the operation reports
failure and performs no write. -/
def apply_modules_patch_fs : Option (List Char) → Option (List Char) × Bool
  | none => (none, false)
  | some c =>
    match apply_modules_patch c with
    | .alreadyPresent => (some c, true)
    | .structureNotFound => (some c, false)
    | .written out _ => (some out, true)

/-- Outcome signals of the external collaborators consumed by `main` (script
lines 305-358): the clean-tree check, the `--force` flag, the origin-remote
check, the upstream merge, the contents of the two target files, the test run
and the push. -/
structure Env where
  treeClean : Bool
  force : Bool
  originOk : Bool
  mergeOk : Bool
  toolsetsFile : Option (List Char)
  modulesFile : Option (List Char)
  testsOk : Bool
  pushOk : Bool
deriving DecidableEq

/-- Observable result of one run of `main`: the process exit code, and whether
the test stage and the publish stage were reached. -/
structure MainRun where
  exitCode : Nat
  ranTests : Bool
  ranPublish : Bool
deriving DecidableEq

/-- The control flow of `main` (script lines 305-358): each stage either
advances or exits with code 1; full success exits with code 0.  A missing
remote named upstream is repaired in place by `check_remotes` (script lines
107-111), so only the origin check can fail that stage. -/
def mainRun (e : Env) : MainRun :=
  if (e.treeClean || e.force) = false then ⟨1, false, false⟩
  else if e.originOk = false then ⟨1, false, false⟩
  else if e.mergeOk = false then ⟨1, false, false⟩
  else if (apply_toolsets_patch_fs e.toolsetsFile).2 = false then ⟨1, false, false⟩
  else if (apply_modules_patch_fs e.modulesFile).2 = false then ⟨1, false, false⟩
  else if e.testsOk = false then ⟨1, true, false⟩
  else if e.pushOk = false then ⟨1, true, true⟩
  else ⟨0, true, true⟩

/-- Concrete modules.go content whose import block matches the import pattern
but contains neither the core nor the helm anchor (claim C2). -/
def c2Input : List Char := "package mcp\n\nimport (\n\t_ \"example.com/other\"\n)\n".toList

/-- Concrete modules.go content whose import block lists the helm entry before
the core entry (claim C3). -/
def c3CexInput : List Char := "import (\n\t_ \"github.com/containers/kubernetes-mcp-server/pkg/toolsets/helm\"\n\t_ \"github.com/containers/kubernetes-mcp-server/pkg/toolsets/core\"\n)\n".toList

/-- What `apply_modules_patch` actually produces on `c3CexInput`: the fusion
line inserted immediately before the helm entry, which precedes the core
entry. -/
def c3CexOut : List Char := "import (\n\t_ \"github.com/containers/kubernetes-mcp-server/pkg/toolsets/fusion\"\n\t_ \"github.com/containers/kubernetes-mcp-server/pkg/toolsets/helm\"\n\t_ \"github.com/containers/kubernetes-mcp-server/pkg/toolsets/core\"\n)\n".toList

/-- What claim C3 predicts on `c3CexInput`: the fusion import immediately after
the core entry line. -/
def c3CexAfterCore : List Char := "import (\n\t_ \"github.com/containers/kubernetes-mcp-server/pkg/toolsets/helm\"\n\t_ \"github.com/containers/kubernetes-mcp-server/pkg/toolsets/core\"\n\t_ \"github.com/containers/kubernetes-mcp-server/pkg/toolsets/fusion\"\n)\n".toList

/-- Concrete modules.go content with a helm entry and no core entry (witness
input for the amended claim C3, Scenario 4 of the spec). -/
def c3WitInput : List Char := "import (\n\t_ \"github.com/containers/kubernetes-mcp-server/pkg/toolsets/helm\"\n)\n".toList

/-- Concrete modules.go content with an import-block open-marker, an anchor
entry, and no close-marker anywhere (claim C4). -/
def c4CexInput : List Char := "package mcp\nimport (\n\t_ \"github.com/containers/kubernetes-mcp-server/pkg/toolsets/core\"\n".toList

/-- What `apply_modules_patch` actually produces on `c4CexInput`: the fusion
line inserted after the core entry, despite the absent close-marker. -/
def c4CexOut : List Char := "package mcp\nimport (\n\t_ \"github.com/containers/kubernetes-mcp-server/pkg/toolsets/core\"\n\t_ \"github.com/containers/kubernetes-mcp-server/pkg/toolsets/fusion\"\n".toList

/-- Concrete modules.go content with no import block at all (witness input for
the amended claim C4). -/
def c4WitInput : List Char := "package mcp\n".toList

/-- Concrete modules.go content with a core entry then a helm entry (witness
input for claim C5, Scenario 3 of the spec). -/
def c5WitInput : List Char := "import (\n\t_ \"github.com/containers/kubernetes-mcp-server/pkg/toolsets/core\"\n\t_ \"github.com/containers/kubernetes-mcp-server/pkg/toolsets/helm\"\n)\n".toList

/-- What `apply_modules_patch` produces on `c5WitInput`: the fusion import
between the core and helm entries. -/
def c5WitOut : List Char := "import (\n\t_ \"github.com/containers/kubernetes-mcp-server/pkg/toolsets/core\"\n\t_ \"github.com/containers/kubernetes-mcp-server/pkg/toolsets/fusion\"\n\t_ \"github.com/containers/kubernetes-mcp-server/pkg/toolsets/helm\"\n)\n".toList

/-- Concrete toolsets.go content lacking the hook and lacking a trailing
newline (witness input for claim C6). -/
def c6WitInput : List Char := "package toolsets".toList

/-- Concrete toolsets.go content mentioning both RULE_A markers only inside a
comment, without the actual hook block (witness input for claim C8). -/
def c8WitToolsets : List Char := "// registerFusionTools and SetFusionRegistration are only mentioned here\npackage toolsets\n".toList

/-- Concrete modules.go content mentioning the RULE_B marker only inside a
comment, with no import at all (witness input for claim C8). -/
def c8WitModules : List Char := "// pkg/toolsets/fusion is only mentioned in this comment\npackage mcp\n".toList

/-- Concrete modules.go content with two core anchor lines (witness input for
claim C9). -/
def c9WitInput : List Char := "import (\n\t_ \"a/pkg/toolsets/core\"\n\t_ \"b/pkg/toolsets/core\"\n)\n".toList

/-- What `apply_modules_patch` produces on `c9WitInput`: one fusion import
after the first core entry, none after the second. -/
def c9WitOut : List Char := "import (\n\t_ \"a/pkg/toolsets/core\"\n\t_ \"github.com/containers/kubernetes-mcp-server/pkg/toolsets/fusion\"\n\t_ \"b/pkg/toolsets/core\"\n)\n".toList

/-- Concrete environment in which every stage would succeed except that the
toolsets.go target file is missing (witness input for claim C10). -/
def c10WitEnv : Env :=
  { treeClean := true, force := false, originOk := true, mergeOk := true,
    toolsetsFile := none, modulesFile := some c2Input,
    testsOk := true, pushOk := true }

theorem isPre_append (pat : List Char) : ∀ s t : List Char, isPre pat s = true → isPre pat (s ++ t) = true := by
  induction pat with
  | nil => intro s t _; cases s <;> rfl
  | cons p ps ih =>
    intro s t h
    cases s with
    | nil => exact absurd h (by simp [isPre])
    | cons c cs =>
      simp only [isPre, Bool.and_eq_true, beq_iff_eq] at h
      simp only [List.cons_append, isPre, Bool.and_eq_true, beq_iff_eq]
      exact ⟨h.1, ih cs t h.2⟩

theorem containsSub_nil_pat (t : List Char) : containsSub [] t = true := by
  cases t <;> simp [containsSub, isPre]

theorem containsSub_append_right (pat : List Char) : ∀ s t : List Char, containsSub pat s = true → containsSub pat (s ++ t) = true := by
  intro s
  induction s with
  | nil =>
    intro t h
    simp only [containsSub] at h
    cases pat with
    | nil => exact containsSub_nil_pat t
    | cons p ps => exact absurd h (by simp [isPre])
  | cons c cs ih =>
    intro t h
    simp only [containsSub, Bool.or_eq_true] at h
    rcases h with h | h
    · simp only [List.cons_append, containsSub, Bool.or_eq_true]
      exact Or.inl (isPre_append pat (c :: cs) t h)
    · simp only [List.cons_append, containsSub, Bool.or_eq_true]
      exact Or.inr (ih t h)

theorem containsSub_append_left (pat : List Char) : ∀ s t : List Char, containsSub pat t = true → containsSub pat (s ++ t) = true := by
  intro s
  induction s with
  | nil => intro t h; exact h
  | cons c cs ih =>
    intro t h
    simp only [List.cons_append, containsSub, Bool.or_eq_true]
    exact Or.inr (ih t h)

theorem containsSub_join_of_mem (pat : List Char) : ∀ (ls : List (List Char)) (l : List Char), l ∈ ls → containsSub pat l = true → containsSub pat (joinNl ls) = true := by
  intro ls
  induction ls with
  | nil => intro l hl _; exact absurd hl (List.not_mem_nil l)
  | cons x xs ih =>
    intro l hl h
    rcases List.mem_cons.mp hl with rfl | hl
    · cases xs with
      | nil => exact h
      | cons y ys =>
        show containsSub pat (l ++ '\n' :: joinNl (y :: ys)) = true
        exact containsSub_append_right pat l _ h
    · have hxs : xs ≠ [] := by
        intro he; rw [he] at hl; exact absurd hl (List.not_mem_nil l)
      have hj : containsSub pat (joinNl xs) = true := ih l hl h
      cases xs with
      | nil => exact absurd rfl hxs
      | cons y ys =>
        show containsSub pat (x ++ '\n' :: joinNl (y :: ys)) = true
        exact containsSub_append_left pat x _
          (containsSub_append_left pat ['\n'] _ hj)

theorem splitNl_ne_nil : ∀ cs : List Char, splitNl cs ≠ [] := by
  intro cs
  induction cs with
  | nil => simp [splitNl]
  | cons c cs ih =>
    by_cases h : c = '\n'
    · simp [splitNl, h]
    · simp only [splitNl, if_neg h]
      cases he : splitNl cs with
      | nil => exact absurd he ih
      | cons l ls => simp

theorem joinNl_splitNl : ∀ cs : List Char, joinNl (splitNl cs) = cs := by
  intro cs
  induction cs with
  | nil => rfl
  | cons c cs ih =>
    by_cases h : c = '\n'
    · subst h
      simp only [splitNl, if_pos rfl]
      cases he : splitNl cs with
      | nil => exact absurd he (splitNl_ne_nil cs)
      | cons l ls =>
        rw [he] at ih
        show [] ++ '\n' :: joinNl (l :: ls) = '\n' :: cs
        rw [List.nil_append, ih]
    · simp only [splitNl, if_neg h]
      cases he : splitNl cs with
      | nil => exact absurd he (splitNl_ne_nil cs)
      | cons l ls =>
        rw [he] at ih
        cases ls with
        | nil =>
          show c :: l = c :: cs
          have : l = cs := ih
          rw [this]
        | cons y ys =>
          show (c :: l) ++ '\n' :: joinNl (y :: ys) = c :: cs
          have : l ++ '\n' :: joinNl (y :: ys) = cs := ih
          rw [List.cons_append, this]

theorem splitNl_no_nl : ∀ (cs : List Char) (l : List Char), l ∈ splitNl cs → '\n' ∉ l := by
  intro cs
  induction cs with
  | nil =>
    intro l hl
    simp only [splitNl, List.mem_singleton] at hl
    subst hl; simp
  | cons c cs ih =>
    intro l hl
    by_cases h : c = '\n'
    · simp only [splitNl, if_pos h, List.mem_cons] at hl
      rcases hl with rfl | hl
      · simp
      · exact ih l hl
    · simp only [splitNl, if_neg h] at hl
      cases he : splitNl cs with
      | nil => exact absurd he (splitNl_ne_nil cs)
      | cons m ms =>
        rw [he] at hl
        rcases List.mem_cons.mp hl with rfl | hl
        · intro hmem
          rcases List.mem_cons.mp hmem with he2 | hmem
          · exact h he2.symm
          · exact ih m (he ▸ List.mem_cons_self m ms) hmem
        · exact ih l (he ▸ List.mem_cons_of_mem m hl)

theorem splitNl_of_no_nl : ∀ l : List Char, '\n' ∉ l → splitNl l = [l] := by
  intro l
  induction l with
  | nil => intro _; rfl
  | cons c cs ih =>
    intro h
    have hc : c ≠ '\n' := fun he => h (he ▸ List.mem_cons_self c cs)
    have hcs : '\n' ∉ cs := fun hm => h (List.mem_cons_of_mem c hm)
    simp only [splitNl, if_neg hc, ih hcs]

theorem splitNl_append_nl : ∀ (l rest : List Char), '\n' ∉ l → splitNl (l ++ '\n' :: rest) = l :: splitNl rest := by
  intro l
  induction l with
  | nil => intro rest _; simp [splitNl]
  | cons c cs ih =>
    intro rest h
    have hc : c ≠ '\n' := fun he => h (he ▸ List.mem_cons_self c cs)
    have hcs : '\n' ∉ cs := fun hm => h (List.mem_cons_of_mem c hm)
    simp only [List.cons_append, splitNl, if_neg hc, List.append_eq, ih rest hcs]

theorem splitNl_joinNl : ∀ ls : List (List Char), ls ≠ [] → (∀ l ∈ ls, '\n' ∉ l) → splitNl (joinNl ls) = ls := by
  intro ls
  induction ls with
  | nil => intro h _; exact absurd rfl h
  | cons x xs ih =>
    intro _ hno
    cases xs with
    | nil =>
      show splitNl (joinNl [x]) = [x]
      exact splitNl_of_no_nl x (hno x (List.mem_cons_self x []))
    | cons y ys =>
      show splitNl (x ++ '\n' :: joinNl (y :: ys)) = x :: y :: ys
      rw [splitNl_append_nl x _ (hno x (List.mem_cons_self x (y :: ys)))]
      rw [ih (by simp) (fun l hl => hno l (List.mem_cons_of_mem x hl))]

theorem scanGo_added : ∀ (ls : List (List Char)) (b : Bool), scanGo ls b true = (ls, true) := by
  intro ls
  induction ls with
  | nil => intro b; rfl
  | cons line rest ih =>
    intro b
    simp only [scanGo, Bool.not_true, Bool.and_false, Bool.false_and,
      Bool.false_eq_true, if_false, ih]
    by_cases h : containsSub impOpenMark line = true
    · simp [h]
    · simp [h]

theorem scanGo_shape : ∀ (ls : List (List Char)) (b : Bool),
    scanGo ls b false = (ls, false) ∨
    ∃ i, scanGo ls b false = (ls.take i ++ fusionImportLine :: ls.drop i, true) := by
  intro ls
  induction ls with
  | nil => intro b; exact Or.inl rfl
  | cons line rest ih =>
    intro b
    by_cases hOpen : containsSub impOpenMark line = true
    · rcases ih true with h | ⟨i, h⟩
      · exact Or.inl (by simp [scanGo, hOpen, h])
      · exact Or.inr ⟨i + 1, by simp [scanGo, hOpen, h]⟩
    · by_cases hCore : b = true ∧ containsSub coreMark line = true
      · exact Or.inr ⟨1, by simp [scanGo, hOpen, hCore.1, hCore.2, scanGo_added]⟩
      · by_cases hHelm : b = true ∧ containsSub helmMark line = true
        · have hc : containsSub coreMark line = false := by
            rcases Bool.eq_false_or_eq_true (containsSub coreMark line) with h | h
            · exact absurd ⟨hHelm.1, h⟩ hCore
            · exact h
          exact Or.inr ⟨0, by simp [scanGo, hOpen, hc, hHelm.1, hHelm.2, scanGo_added]⟩
        · rcases ih ((!containsSub closeMark line || !b) && b) with h | ⟨i, h⟩
          · exact Or.inl (by simp [scanGo, hOpen, hCore, hHelm, h])
          · exact Or.inr ⟨i + 1, by simp [scanGo, hOpen, hCore, hHelm, h]⟩

theorem scanGo_not_added : ∀ (ls : List (List Char)) (b : Bool),
    (scanGo ls b false).2 = false → (scanGo ls b false).1 = ls := by
  intro ls b h
  rcases scanGo_shape ls b with hs | ⟨i, hs⟩
  · rw [hs]
  · rw [hs] at h; exact absurd h (by simp)

theorem scanGo_insert : ∀ (ls : List (List Char)) (b : Bool) (out : List (List Char)),
    scanGo ls b false = (out, true) →
    ∃ i, out = ls.take i ++ fusionImportLine :: ls.drop i := by
  intro ls b out h
  rcases scanGo_shape ls b with hs | ⟨i, hs⟩
  · rw [hs] at h; exact absurd h (by simp)
  · rw [hs] at h
    exact ⟨i, by injection h with h1 _; exact h1.symm⟩

theorem scanGo_findAnchor : ∀ (ls : List (List Char)) (b : Bool),
    (findAnchor ls b = none → scanGo ls b false = (ls, false)) ∧
    (∀ i, findAnchor ls b = some (i, .core) →
      scanGo ls b false = (ls.take (i + 1) ++ fusionImportLine :: ls.drop (i + 1), true)) ∧
    (∀ i, findAnchor ls b = some (i, .helm) →
      scanGo ls b false = (ls.take i ++ fusionImportLine :: ls.drop i, true)) := by
  intro ls
  induction ls with
  | nil =>
    intro b
    refine ⟨fun _ => rfl, fun i h => ?_, fun i h => ?_⟩ <;> simp [findAnchor] at h
  | cons line rest ih =>
    intro b
    by_cases hOpen : containsSub impOpenMark line = true
    · have hred : findAnchor (line :: rest) b =
          match findAnchor rest true with
          | none => none
          | some (i, h) => some (i + 1, h) := by
        simp [findAnchor, hOpen]
      refine ⟨?_, ?_, ?_⟩
      · intro hfa
        rw [hred] at hfa
        cases hrec : findAnchor rest true with
        | none => simp [scanGo, hOpen, (ih true).1 hrec]
        | some p => rw [hrec] at hfa; exact absurd hfa (by simp)
      · intro i hfa
        rw [hred] at hfa
        cases hrec : findAnchor rest true with
        | none => rw [hrec] at hfa; exact absurd hfa (by simp)
        | some p =>
          obtain ⟨j, hh⟩ := p
          rw [hrec] at hfa
          injection hfa with hp
          have hi : j + 1 = i := congrArg Prod.fst hp
          have hk : hh = AnchorHit.core := congrArg Prod.snd hp
          subst hk
          rw [← hi]
          simp [scanGo, hOpen, (ih true).2.1 j hrec]
      · intro i hfa
        rw [hred] at hfa
        cases hrec : findAnchor rest true with
        | none => rw [hrec] at hfa; exact absurd hfa (by simp)
        | some p =>
          obtain ⟨j, hh⟩ := p
          rw [hrec] at hfa
          injection hfa with hp
          have hi : j + 1 = i := congrArg Prod.fst hp
          have hk : hh = AnchorHit.helm := congrArg Prod.snd hp
          subst hk
          rw [← hi]
          simp [scanGo, hOpen, (ih true).2.2 j hrec]
    · by_cases hCore : b = true ∧ containsSub coreMark line = true
      · have hred : findAnchor (line :: rest) b = some (0, AnchorHit.core) := by
          simp [findAnchor, hOpen, hCore.1, hCore.2]
        refine ⟨?_, ?_, ?_⟩
        · intro hfa; rw [hred] at hfa; exact absurd hfa (by simp)
        · intro i hfa
          rw [hred] at hfa
          injection hfa with hp
          have hi : 0 = i := congrArg Prod.fst hp
          rw [← hi]
          simp [scanGo, hOpen, hCore.1, hCore.2, scanGo_added]
        · intro i hfa
          rw [hred] at hfa
          injection hfa with hp
          have hk : AnchorHit.core = AnchorHit.helm := congrArg Prod.snd hp
          exact absurd hk (by simp)
      · by_cases hHelm : b = true ∧ containsSub helmMark line = true
        · have hc : containsSub coreMark line = false := by
            rcases Bool.eq_false_or_eq_true (containsSub coreMark line) with h | h
            · exact absurd ⟨hHelm.1, h⟩ hCore
            · exact h
          have hred : findAnchor (line :: rest) b = some (0, AnchorHit.helm) := by
            simp [findAnchor, hOpen, hc, hHelm.1, hHelm.2]
          refine ⟨?_, ?_, ?_⟩
          · intro hfa; rw [hred] at hfa; exact absurd hfa (by simp)
          · intro i hfa
            rw [hred] at hfa
            injection hfa with hp
            have hk : AnchorHit.helm = AnchorHit.core := congrArg Prod.snd hp
            exact absurd hk (by simp)
          · intro i hfa
            rw [hred] at hfa
            injection hfa with hp
            have hi : 0 = i := congrArg Prod.fst hp
            rw [← hi]
            simp [scanGo, hOpen, hc, hHelm.1, hHelm.2, scanGo_added]
        · have hred : findAnchor (line :: rest) b =
              match findAnchor rest ((!containsSub closeMark line || !b) && b) with
              | none => none
              | some (i, h) => some (i + 1, h) := by
            simp [findAnchor, hOpen, hCore, hHelm]
          refine ⟨?_, ?_, ?_⟩
          · intro hfa
            rw [hred] at hfa
            cases hrec : findAnchor rest ((!containsSub closeMark line || !b) && b) with
            | none =>
              simp [scanGo, hOpen, hCore, hHelm,
                (ih ((!containsSub closeMark line || !b) && b)).1 hrec]
            | some p => rw [hrec] at hfa; exact absurd hfa (by simp)
          · intro i hfa
            rw [hred] at hfa
            cases hrec : findAnchor rest ((!containsSub closeMark line || !b) && b) with
            | none => rw [hrec] at hfa; exact absurd hfa (by simp)
            | some p =>
              obtain ⟨j, hh⟩ := p
              rw [hrec] at hfa
              injection hfa with hp
              have hi : j + 1 = i := congrArg Prod.fst hp
              have hk : hh = AnchorHit.core := congrArg Prod.snd hp
              subst hk
              rw [← hi]
              simp [scanGo, hOpen, hCore, hHelm,
                (ih ((!containsSub closeMark line || !b) && b)).2.1 j hrec]
          · intro i hfa
            rw [hred] at hfa
            cases hrec : findAnchor rest ((!containsSub closeMark line || !b) && b) with
            | none => rw [hrec] at hfa; exact absurd hfa (by simp)
            | some p =>
              obtain ⟨j, hh⟩ := p
              rw [hrec] at hfa
              injection hfa with hp
              have hi : j + 1 = i := congrArg Prod.fst hp
              have hk : hh = AnchorHit.helm := congrArg Prod.snd hp
              subst hk
              rw [← hi]
              simp [scanGo, hOpen, hCore, hHelm,
                (ih ((!containsSub closeMark line || !b) && b)).2.2 j hrec]

theorem findAnchor_line : ∀ (ls : List (List Char)) (b : Bool) (i : Nat) (h : AnchorHit),
    findAnchor ls b = some (i, h) →
    ∃ l, ls[i]? = some l ∧ containsSub (anchorMark h) l = true := by
  intro ls
  induction ls with
  | nil => intro b i h hfa; simp [findAnchor] at hfa
  | cons line rest ih =>
    intro b i h hfa
    by_cases hOpen : containsSub impOpenMark line = true
    · rw [show findAnchor (line :: rest) b =
          match findAnchor rest true with
          | none => none
          | some (i, h) => some (i + 1, h) from by simp [findAnchor, hOpen]] at hfa
      cases hrec : findAnchor rest true with
      | none => rw [hrec] at hfa; exact absurd hfa (by simp)
      | some p =>
        obtain ⟨j, hh⟩ := p
        rw [hrec] at hfa
        injection hfa with hp
        have hi : j + 1 = i := congrArg Prod.fst hp
        have hk : hh = h := congrArg Prod.snd hp
        subst hk
        obtain ⟨l, hl1, hl2⟩ := ih true j hh hrec
        exact ⟨l, by rw [← hi]; simpa using hl1, hl2⟩
    · by_cases hCore : b = true ∧ containsSub coreMark line = true
      · rw [show findAnchor (line :: rest) b = some (0, AnchorHit.core) from by
          simp [findAnchor, hOpen, hCore.1, hCore.2]] at hfa
        injection hfa with hp
        have hi : 0 = i := congrArg Prod.fst hp
        have hk : AnchorHit.core = h := congrArg Prod.snd hp
        subst hk
        exact ⟨line, by rw [← hi]; simp, hCore.2⟩
      · by_cases hHelm : b = true ∧ containsSub helmMark line = true
        · have hc : containsSub coreMark line = false := by
            rcases Bool.eq_false_or_eq_true (containsSub coreMark line) with hx | hx
            · exact absurd ⟨hHelm.1, hx⟩ hCore
            · exact hx
          rw [show findAnchor (line :: rest) b = some (0, AnchorHit.helm) from by
            simp [findAnchor, hOpen, hc, hHelm.1, hHelm.2]] at hfa
          injection hfa with hp
          have hi : 0 = i := congrArg Prod.fst hp
          have hk : AnchorHit.helm = h := congrArg Prod.snd hp
          subst hk
          exact ⟨line, by rw [← hi]; simp, hHelm.2⟩
        · rw [show findAnchor (line :: rest) b =
              match findAnchor rest ((!containsSub closeMark line || !b) && b) with
              | none => none
              | some (i, h) => some (i + 1, h) from by
              simp [findAnchor, hOpen, hCore, hHelm]] at hfa
          cases hrec : findAnchor rest ((!containsSub closeMark line || !b) && b) with
          | none => rw [hrec] at hfa; exact absurd hfa (by simp)
          | some p =>
            obtain ⟨j, hh⟩ := p
            rw [hrec] at hfa
            injection hfa with hp
            have hi : j + 1 = i := congrArg Prod.fst hp
            have hk : hh = h := congrArg Prod.snd hp
            subst hk
            obtain ⟨l, hl1, hl2⟩ := ih _ j hh hrec
            exact ⟨l, by rw [← hi]; simpa using hl1, hl2⟩

/-- C1: for both patch rules, applying the rule twice equals applying it once.
For RULE_A the second application of `apply_toolsets_patch` returns its input
unchanged with `changed = false`; for RULE_B the text on disk after a second
run of `apply_modules_patch` equals the text after the first run, and the
second run inserts nothing. -/
theorem c1_idempotent (content : List Char) :
    (apply_toolsets_patch (apply_toolsets_patch content).1 =
      ((apply_toolsets_patch content).1, false)) ∧
    (modulesResult (modulesResult content (apply_modules_patch content))
        (apply_modules_patch (modulesResult content (apply_modules_patch content))) =
      modulesResult content (apply_modules_patch content)) ∧
    (modulesChanged
        (apply_modules_patch (modulesResult content (apply_modules_patch content))) = false) := by
  have hA : apply_toolsets_patch (apply_toolsets_patch content).1 =
      ((apply_toolsets_patch content).1, false) := by
    by_cases hp : (containsSub markRegister content && containsSub markSetReg content) = true
    · simp [apply_toolsets_patch, hp]
    · have h1 : containsSub markRegister
          ((if endsWithNl content then content else content ++ ['\n']) ++ fusionCode) = true :=
        containsSub_append_left _ _ _ (by decide)
      have h2 : containsSub markSetReg
          ((if endsWithNl content then content else content ++ ['\n']) ++ fusionCode) = true :=
        containsSub_append_left _ _ _ (by decide)
      simp [apply_toolsets_patch, hp, h1, h2]
  have hB : (modulesResult (modulesResult content (apply_modules_patch content))
        (apply_modules_patch (modulesResult content (apply_modules_patch content))) =
      modulesResult content (apply_modules_patch content)) ∧
    (modulesChanged
        (apply_modules_patch (modulesResult content (apply_modules_patch content))) = false) := by
    by_cases hp : containsSub fusionMark content = true
    · have happ : apply_modules_patch content = .alreadyPresent := by
        simp [apply_modules_patch, hp]
      rw [happ]
      simp [modulesResult, happ, modulesChanged]
    · by_cases hm : impPatSearch content = true
      · cases ha : (scanGo (splitNl content) false false).2
        · have hlines : (scanGo (splitNl content) false false).1 = splitNl content :=
            scanGo_not_added _ _ ha
          have happ : apply_modules_patch content = .written content false := by
            have hu : apply_modules_patch content =
                .written (joinNl (scanGo (splitNl content) false false).1)
                  (scanGo (splitNl content) false false).2 := by
              simp [apply_modules_patch, hp, hm]
            rw [hu, hlines, joinNl_splitNl, ha]
          rw [happ]
          simp only [modulesResult, happ, modulesChanged]
          exact ⟨trivial, trivial⟩
        · have hsc : scanGo (splitNl content) false false =
              ((scanGo (splitNl content) false false).1, true) := by
            rw [← ha]
          obtain ⟨i, hins⟩ := scanGo_insert _ _ _ hsc
          have hmem : fusionImportLine ∈ (scanGo (splitNl content) false false).1 := by
            rw [hins]
            exact List.mem_append_right _ (List.mem_cons_self _ _)
          have hfus : containsSub fusionMark
              (joinNl (scanGo (splitNl content) false false).1) = true :=
            containsSub_join_of_mem _ _ _ hmem (by decide)
          have happ : apply_modules_patch content =
              .written (joinNl (scanGo (splitNl content) false false).1) true := by
            simp [apply_modules_patch, hp, hm, ha]
          have happ2 : apply_modules_patch
              (joinNl (scanGo (splitNl content) false false).1) = .alreadyPresent := by
            simp [apply_modules_patch, hfus]
          rw [happ]
          simp only [modulesResult, happ2, modulesChanged]
          exact ⟨trivial, trivial⟩
      · have happ : apply_modules_patch content = .structureNotFound := by
          simp [apply_modules_patch, hp, hm]
        rw [happ]
        simp only [modulesResult, happ, modulesChanged]
        exact ⟨trivial, trivial⟩
  exact ⟨hA, hB.1, hB.2⟩

/-- C2: on an import block containing neither the core nor the helm anchor,
`apply_modules_patch` does not fail with an anchor-not-found error: it returns
success (modelled by the `written` outcome with `import_added = false`, and by
the file-system wrapper reporting `true`) and rewrites the file with
the import still missing.  This contradicts the claim, which requires an
`AnchorNotFound` failure and no write; the spec's design notes identify the
code's behavior here as a latent bug, so the claim is recorded as a code bug. -/
theorem c2_silent_noop_bug :
    containsSub coreMark c2Input = false ∧
    containsSub helmMark c2Input = false ∧
    containsSub impOpenMark c2Input = true ∧
    apply_modules_patch c2Input = .written c2Input false ∧
    apply_modules_patch_fs (some c2Input) = (some c2Input, true) := by
  refine ⟨by decide, by decide, by decide, by decide, by decide⟩

theorem splitNl_joinNl_insert (content : List Char) (i : Nat) :
    splitNl (joinNl ((splitNl content).take i ++ fusionImportLine :: (splitNl content).drop i)) =
      (splitNl content).take i ++ fusionImportLine :: (splitNl content).drop i := by
  apply splitNl_joinNl
  · simp
  · intro l hl
    rcases List.mem_append.mp hl with hl | hl
    · exact splitNl_no_nl content l (List.take_subset i _ hl)
    · rcases List.mem_cons.mp hl with rfl | hl
      · decide
      · exact splitNl_no_nl content l (List.drop_subset i _ hl)

theorem insert_lines_length (content : List Char) (i : Nat) :
    ((splitNl content).take i ++ fusionImportLine :: (splitNl content).drop i).length =
      (splitNl content).length + 1 := by
  simp [List.length_append]
  omega

/-- C3 (amended): on a text lacking the fusion import whose import pattern is
found, the insertion point is decided by the first anchor line the rebuild
loop encounters inside an import block (`findAnchor`): the new line goes
immediately after that line when it is a core entry, and immediately before it
when it is a helm entry; the located line does contain the corresponding
anchor marker.  In particular a block with a core entry and no helm entry
inserts immediately after the core entry, and a block with a helm entry and no
core entry inserts immediately before the helm entry. -/
theorem c3_anchor_insertion (content : List Char)
    (hp : containsSub fusionMark content = false)
    (hm : impPatSearch content = true) :
    (∀ i, findAnchor (splitNl content) false = some (i, .core) →
      apply_modules_patch content = .written
        (joinNl ((splitNl content).take (i + 1) ++
          fusionImportLine :: (splitNl content).drop (i + 1))) true) ∧
    (∀ i, findAnchor (splitNl content) false = some (i, .helm) →
      apply_modules_patch content = .written
        (joinNl ((splitNl content).take i ++
          fusionImportLine :: (splitNl content).drop i)) true) ∧
    (∀ i h, findAnchor (splitNl content) false = some (i, h) →
      ∃ l, (splitNl content)[i]? = some l ∧ containsSub (anchorMark h) l = true) := by
  refine ⟨?_, ?_, fun i h hfa => findAnchor_line _ _ _ _ hfa⟩
  · intro i hfa
    have hsc := (scanGo_findAnchor (splitNl content) false).2.1 i hfa
    simp [apply_modules_patch, hp, hm, hsc]
  · intro i hfa
    have hsc := (scanGo_findAnchor (splitNl content) false).2.2 i hfa
    simp [apply_modules_patch, hp, hm, hsc]

/-- C3 witness: Scenario 4 of the spec — an import block with a helm entry and
no core entry gets the fusion import immediately before the helm entry
(line index 1). -/
theorem c3_anchor_insertion_witness :
    apply_modules_patch c3WitInput = .written
      (joinNl ((splitNl c3WitInput).take 1 ++
        fusionImportLine :: (splitNl c3WitInput).drop 1)) true :=
  (c3_anchor_insertion c3WitInput (by decide) (by decide)).2.1 1 (by decide)

/-- C3 counterexample: in `c3CexInput` the import block lists the helm entry
before the core entry.  The core entry is present (it is line index 2, and
inserting immediately after it would give `c3CexAfterCore`), yet the code
inserts the fusion import before the helm entry, producing `c3CexOut`, which
differs from `c3CexAfterCore`.  So the claim's unconditional "contains a core
entry implies insertion immediately after it" is false on the code. -/
theorem c3_counterexample :
    containsSub coreMark c3CexInput = true ∧
    containsSub fusionMark c3CexInput = false ∧
    (splitNl c3CexInput)[2]? =
      some ("\t_ \"github.com/containers/kubernetes-mcp-server/pkg/toolsets/core\"".toList) ∧
    c3CexAfterCore = joinNl ((splitNl c3CexInput).take 3 ++
      fusionImportLine :: (splitNl c3CexInput).drop 3) ∧
    apply_modules_patch c3CexInput = .written c3CexOut true ∧
    c3CexOut ≠ c3CexAfterCore := by
  refine ⟨by decide, by decide, by decide, by decide, by decide, by decide⟩

/-- C4 (amended): `apply_modules_patch` fails with `structureNotFound` (and
performs no write, leaving the file unchanged) exactly when the presence
marker is absent and the import pattern — an import keyword, an opening
parenthesis, and a following underscore-quoted import line — is not found.
The close-marker is not part of this check, so a text with an open-marker and
no matching close-marker is not rejected (see the counterexample). -/
theorem c4_structure_check (content : List Char) :
    (apply_modules_patch content = .structureNotFound ↔
      (containsSub fusionMark content = false ∧ impPatSearch content = false)) ∧
    (apply_modules_patch content = .structureNotFound →
      apply_modules_patch_fs (some content) = (some content, false)) := by
  constructor
  · constructor
    · intro h
      by_cases hp : containsSub fusionMark content = true
      · simp [apply_modules_patch, hp] at h
      · by_cases hm : impPatSearch content = true
        · simp [apply_modules_patch, hp, hm] at h
        · have hp2 : containsSub fusionMark content = false := by
            cases hx : containsSub fusionMark content
            · rfl
            · exact absurd hx hp
          have hm2 : impPatSearch content = false := by
            cases hx : impPatSearch content
            · rfl
            · exact absurd hx hm
          exact ⟨hp2, hm2⟩
    · rintro ⟨hp, hm⟩
      simp [apply_modules_patch, hp, hm]
  · intro h
    simp [apply_modules_patch_fs, h]

/-- C4 witness: a text with no import block at all is rejected with
`structureNotFound` and the file-system state is unchanged with failure
reported. -/
theorem c4_structure_check_witness :
    apply_modules_patch c4WitInput = .structureNotFound ∧
    apply_modules_patch_fs (some c4WitInput) = (some c4WitInput, false) := by
  have h : apply_modules_patch c4WitInput = .structureNotFound :=
    (c4_structure_check c4WitInput).1.mpr ⟨by decide, by decide⟩
  exact ⟨h, (c4_structure_check c4WitInput).2 h⟩

/-- C4 counterexample: `c4CexInput` contains the import-block open-marker and
no close-marker anywhere, yet the operation does not yield
`structureNotFound`: it inserts the fusion import and writes a modified file. -/
theorem c4_counterexample :
    containsSub impOpenMark c4CexInput = true ∧
    containsSub closeMark c4CexInput = false ∧
    apply_modules_patch c4CexInput = .written c4CexOut true ∧
    c4CexOut ≠ c4CexInput := by
  refine ⟨by decide, by decide, by decide, by decide⟩

/-- C5: whenever RULE_B succeeds with `changed = true`, the output is exactly
the input's line sequence with the single fusion import line inserted at one
position: every original line, inside or outside the import block, is
byte-identical and in its original order, and the line count grows by exactly
one. -/
theorem c5_locality (content out : List Char)
    (h : apply_modules_patch content = .written out true) :
    ∃ i, out = joinNl ((splitNl content).take i ++
        fusionImportLine :: (splitNl content).drop i) ∧
      (splitNl out).length = (splitNl content).length + 1 := by
  by_cases hp : containsSub fusionMark content = true
  · simp [apply_modules_patch, hp] at h
  · by_cases hm : impPatSearch content = true
    · have hu : apply_modules_patch content =
          .written (joinNl (scanGo (splitNl content) false false).1)
            (scanGo (splitNl content) false false).2 := by
        simp [apply_modules_patch, hp, hm]
      rw [hu] at h
      injection h with h1 h2
      have hsc : scanGo (splitNl content) false false =
          ((scanGo (splitNl content) false false).1, true) := by
        rw [← h2]
      obtain ⟨i, hins⟩ := scanGo_insert _ _ _ hsc
      refine ⟨i, ?_, ?_⟩
      · rw [← h1, hins]
      · rw [← h1, hins, splitNl_joinNl_insert, insert_lines_length]
    · simp [apply_modules_patch, hp, hm] at h

/-- C5 witness: Scenario 3 of the spec — core then helm; the fusion import is
inserted between them and the conclusion of the locality theorem holds. -/
theorem c5_locality_witness :
    ∃ i, c5WitOut = joinNl ((splitNl c5WitInput).take i ++
        fusionImportLine :: (splitNl c5WitInput).drop i) ∧
      (splitNl c5WitOut).length = (splitNl c5WitInput).length + 1 :=
  c5_locality c5WitInput c5WitOut (by decide)

/-- C6: whenever RULE_A reports `changed = true`, the output length is the
input length plus the length of the fixed appended hook block, plus one
newline exactly when the input does not already end with a newline. -/
theorem c6_append_length (content out : List Char)
    (h : apply_toolsets_patch content = (out, true)) :
    out.length = content.length + (if endsWithNl content = true then 0 else 1)
      + fusionCode.length := by
  by_cases hp : (containsSub markRegister content && containsSub markSetReg content) = true
  · simp [apply_toolsets_patch, hp] at h
  · simp only [apply_toolsets_patch, hp, if_false] at h
    have h1 : (if endsWithNl content then content else content ++ ['\n']) ++ fusionCode
        = out := by
      have := congrArg Prod.fst h
      simpa using this
    by_cases he : endsWithNl content = true
    · rw [← h1]
      simp [he, List.length_append]
    · rw [← h1]
      simp [he, List.length_append]
      omega

/-- C6 witness: a file without the hook and without a trailing newline gains
exactly one newline plus the hook block. -/
theorem c6_append_length_witness :
    ((c6WitInput ++ ['\n']) ++ fusionCode).length =
      c6WitInput.length + (if endsWithNl c6WitInput = true then 0 else 1)
        + fusionCode.length :=
  c6_append_length c6WitInput ((c6WitInput ++ ['\n']) ++ fusionCode) (by decide)

/-- C7: the orchestrator exits with code 0 exactly when every stage succeeds —
a clean tree or the force flag, a correctly configured origin remote, a clean
merge, both patch stages reporting success, passing tests and a successful
push — and its exit code is otherwise 1; no stage failure is mapped to exit
code 0. -/
theorem c7_exit_codes (e : Env) :
    ((mainRun e).exitCode = 0 ↔
      ((e.treeClean || e.force) = true ∧ e.originOk = true ∧ e.mergeOk = true ∧
       (apply_toolsets_patch_fs e.toolsetsFile).2 = true ∧
       (apply_modules_patch_fs e.modulesFile).2 = true ∧
       e.testsOk = true ∧ e.pushOk = true)) ∧
    ((mainRun e).exitCode = 0 ∨ (mainRun e).exitCode = 1) := by
  unfold mainRun
  repeat' split
  all_goals simp_all
  all_goals rcases Bool.eq_false_or_eq_true e.treeClean with h | h <;> simp_all

/-- C8: each rule's presence predicate is a plain substring search over the
whole file text: any text in which the marker strings occur anywhere — for
example only inside comments, with no actual hook block — makes the apply
operation report success with `changed = false` and perform no insertion. -/
theorem c8_presence_is_substring :
    (∀ content, containsSub markRegister content = true →
      containsSub markSetReg content = true →
      apply_toolsets_patch content = (content, false)) ∧
    (∀ content, containsSub fusionMark content = true →
      apply_modules_patch content = .alreadyPresent) := by
  constructor
  · intro content h1 h2
    simp [apply_toolsets_patch, h1, h2]
  · intro content h
    simp [apply_modules_patch, h]

/-- C8 witness: files whose markers occur only inside comments are reported as
already patched and left unchanged. -/
theorem c8_presence_is_substring_witness :
    apply_toolsets_patch c8WitToolsets = (c8WitToolsets, false) ∧
    apply_modules_patch c8WitModules = .alreadyPresent :=
  ⟨c8_presence_is_substring.1 c8WitToolsets (by decide) (by decide),
   c8_presence_is_substring.2 c8WitModules (by decide)⟩

/-- C9: RULE_B inserts its line at most once per invocation: whatever the
input — multiple anchor lines, multiple import blocks — any written output has
at most one more line than the input (the insertion is guarded by the one-shot
`import_added` flag). -/
theorem c9_at_most_one_insertion (content out : List Char) (a : Bool)
    (h : apply_modules_patch content = .written out a) :
    (splitNl out).length ≤ (splitNl content).length + 1 := by
  by_cases hp : containsSub fusionMark content = true
  · simp [apply_modules_patch, hp] at h
  · by_cases hm : impPatSearch content = true
    · have hu : apply_modules_patch content =
          .written (joinNl (scanGo (splitNl content) false false).1)
            (scanGo (splitNl content) false false).2 := by
        simp [apply_modules_patch, hp, hm]
      rw [hu] at h
      injection h with h1 h2
      rcases scanGo_shape (splitNl content) false with hs | ⟨i, hs⟩
      · have hfst : (scanGo (splitNl content) false false).1 = splitNl content := by
          rw [hs]
        rw [← h1, hfst, joinNl_splitNl]
        omega
      · have hfst : (scanGo (splitNl content) false false).1 =
            (splitNl content).take i ++ fusionImportLine :: (splitNl content).drop i := by
          rw [hs]
        rw [← h1, hfst, splitNl_joinNl_insert, insert_lines_length]
    · simp [apply_modules_patch, hp, hm] at h

/-- C9 witness: an import block with two core anchor lines still gains exactly
one line. -/
theorem c9_at_most_one_insertion_witness :
    (splitNl c9WitOut).length ≤ (splitNl c9WitInput).length + 1 :=
  c9_at_most_one_insertion c9WitInput c9WitOut true (by decide)

/-- C10: when a patch rule's target file does not exist, the operation reports
failure and neither creates nor writes any file; the orchestrator then exits
with code 1 without reaching the test or publish stages. -/
theorem c10_missing_file :
    apply_toolsets_patch_fs none = (none, false) ∧
    apply_modules_patch_fs none = (none, false) ∧
    (∀ e : Env, e.toolsetsFile = none → mainRun e = ⟨1, false, false⟩) ∧
    (∀ e : Env, e.modulesFile = none → mainRun e = ⟨1, false, false⟩) := by
  refine ⟨rfl, rfl, ?_, ?_⟩
  · intro e he
    unfold mainRun
    repeat' split
    all_goals simp_all [apply_toolsets_patch_fs, he]
  · intro e he
    unfold mainRun
    repeat' split
    all_goals simp_all [apply_modules_patch_fs, he]

/-- C10 witness: a run in which every external stage would succeed but the
toolsets.go file is missing exits with code 1 before the test and publish
stages. -/
theorem c10_missing_file_witness : mainRun c10WitEnv = ⟨1, false, false⟩ :=
  c10_missing_file.2.2.1 c10WitEnv rfl
